import Mathlib

/-!
Verification of the restaurant-app generation pipeline and output
normalization (src/app.py): text normalization (`normalize_lines`,
`clean_restaurant_name`), display/export formatting (`to_display_list`,
`to_export_v2`), the LCEL chain of `build_chain`, and the post-invoke
validation of the run-button handler.

Strings are modelled as Lean `String` / `List Char`.  Python character
classes (`\s`, `\d`, `str.isspace`, `str.splitlines` boundaries) are
modelled by their Unicode code-point sets, written numerically.
-/

/-- Python whitespace (the set stripped by `str.strip()` and matched by
the regex class `\s`): code points 9-13, 28-31, space, NEL 133, NBSP 160,
Ogham 5760, 8192-8202, LS 8232, PS 8233, NNBSP 8239, MMSP 8287,
ideographic space 12288. -/
def isPySpace (c : Char) : Bool :=
  c.toNat = 32 || decide (9 ≤ c.toNat ∧ c.toNat ≤ 13) ||
  decide (28 ≤ c.toNat ∧ c.toNat ≤ 31) ||
  c.toNat = 133 || c.toNat = 160 || c.toNat = 5760 ||
  decide (8192 ≤ c.toNat ∧ c.toNat ≤ 8202) ||
  c.toNat = 8232 || c.toNat = 8233 ||
  c.toNat = 8239 || c.toNat = 8287 || c.toNat = 12288

/-- Line boundaries of Python `str.splitlines`: LF 10, VT 11, FF 12, CR 13,
FS 28, GS 29, RS 30, NEL 133, LS 8232, PS 8233 (CRLF handled as a pair). -/
def isLineBoundary (c : Char) : Bool :=
  decide (10 ≤ c.toNat ∧ c.toNat ≤ 13) ||
  decide (28 ≤ c.toNat ∧ c.toNat ≤ 30) ||
  c.toNat = 133 || c.toNat = 8232 || c.toNat = 8233

/-- Bullet-like glyphs of `LINE_CLEAN_RE`, the class
`[•\-\*–—]`: bullet 8226, hyphen 45, asterisk 42,
en dash 8211, em dash 8212. -/
def isBulletGlyph (c : Char) : Bool :=
  c.toNat = 45 || c.toNat = 42 || c.toNat = 8226 ||
  c.toNat = 8211 || c.toNat = 8212

/-- Characters allowed after a numeric marker in `LINE_CLEAN_RE`, the
class `[.)\-•]`: full stop 46, right paren 41, hyphen 45, bullet 8226. -/
def isCloser (c : Char) : Bool :=
  c.toNat = 46 || c.toNat = 41 || c.toNat = 45 || c.toNat = 8226

/-- Unicode decimal digit (category Nd), modelling the regex class `\d`:
Python 3 `re` on str patterns (no `re.ASCII` flag, as in `LINE_CLEAN_RE`)
matches every Unicode decimal digit, 660 code points in 62 runs, from
ASCII 48-57 through Arabic-Indic 1632-1641 up to Adlam 125264-125273 and
Segmented 130032-130041. -/
def isDigitChar (c : Char) : Bool :=
  decide (48 ≤ c.toNat ∧ c.toNat ≤ 57) ||
  decide (1632 ≤ c.toNat ∧ c.toNat ≤ 1641) ||
  decide (1776 ≤ c.toNat ∧ c.toNat ≤ 1785) ||
  decide (1984 ≤ c.toNat ∧ c.toNat ≤ 1993) ||
  decide (2406 ≤ c.toNat ∧ c.toNat ≤ 2415) ||
  decide (2534 ≤ c.toNat ∧ c.toNat ≤ 2543) ||
  decide (2662 ≤ c.toNat ∧ c.toNat ≤ 2671) ||
  decide (2790 ≤ c.toNat ∧ c.toNat ≤ 2799) ||
  decide (2918 ≤ c.toNat ∧ c.toNat ≤ 2927) ||
  decide (3046 ≤ c.toNat ∧ c.toNat ≤ 3055) ||
  decide (3174 ≤ c.toNat ∧ c.toNat ≤ 3183) ||
  decide (3302 ≤ c.toNat ∧ c.toNat ≤ 3311) ||
  decide (3430 ≤ c.toNat ∧ c.toNat ≤ 3439) ||
  decide (3558 ≤ c.toNat ∧ c.toNat ≤ 3567) ||
  decide (3664 ≤ c.toNat ∧ c.toNat ≤ 3673) ||
  decide (3792 ≤ c.toNat ∧ c.toNat ≤ 3801) ||
  decide (3872 ≤ c.toNat ∧ c.toNat ≤ 3881) ||
  decide (4160 ≤ c.toNat ∧ c.toNat ≤ 4169) ||
  decide (4240 ≤ c.toNat ∧ c.toNat ≤ 4249) ||
  decide (6112 ≤ c.toNat ∧ c.toNat ≤ 6121) ||
  decide (6160 ≤ c.toNat ∧ c.toNat ≤ 6169) ||
  decide (6470 ≤ c.toNat ∧ c.toNat ≤ 6479) ||
  decide (6608 ≤ c.toNat ∧ c.toNat ≤ 6617) ||
  decide (6784 ≤ c.toNat ∧ c.toNat ≤ 6793) ||
  decide (6800 ≤ c.toNat ∧ c.toNat ≤ 6809) ||
  decide (6992 ≤ c.toNat ∧ c.toNat ≤ 7001) ||
  decide (7088 ≤ c.toNat ∧ c.toNat ≤ 7097) ||
  decide (7232 ≤ c.toNat ∧ c.toNat ≤ 7241) ||
  decide (7248 ≤ c.toNat ∧ c.toNat ≤ 7257) ||
  decide (42528 ≤ c.toNat ∧ c.toNat ≤ 42537) ||
  decide (43216 ≤ c.toNat ∧ c.toNat ≤ 43225) ||
  decide (43264 ≤ c.toNat ∧ c.toNat ≤ 43273) ||
  decide (43472 ≤ c.toNat ∧ c.toNat ≤ 43481) ||
  decide (43504 ≤ c.toNat ∧ c.toNat ≤ 43513) ||
  decide (43600 ≤ c.toNat ∧ c.toNat ≤ 43609) ||
  decide (44016 ≤ c.toNat ∧ c.toNat ≤ 44025) ||
  decide (65296 ≤ c.toNat ∧ c.toNat ≤ 65305) ||
  decide (66720 ≤ c.toNat ∧ c.toNat ≤ 66729) ||
  decide (68912 ≤ c.toNat ∧ c.toNat ≤ 68921) ||
  decide (69734 ≤ c.toNat ∧ c.toNat ≤ 69743) ||
  decide (69872 ≤ c.toNat ∧ c.toNat ≤ 69881) ||
  decide (69942 ≤ c.toNat ∧ c.toNat ≤ 69951) ||
  decide (70096 ≤ c.toNat ∧ c.toNat ≤ 70105) ||
  decide (70384 ≤ c.toNat ∧ c.toNat ≤ 70393) ||
  decide (70736 ≤ c.toNat ∧ c.toNat ≤ 70745) ||
  decide (70864 ≤ c.toNat ∧ c.toNat ≤ 70873) ||
  decide (71248 ≤ c.toNat ∧ c.toNat ≤ 71257) ||
  decide (71360 ≤ c.toNat ∧ c.toNat ≤ 71369) ||
  decide (71472 ≤ c.toNat ∧ c.toNat ≤ 71481) ||
  decide (71904 ≤ c.toNat ∧ c.toNat ≤ 71913) ||
  decide (72016 ≤ c.toNat ∧ c.toNat ≤ 72025) ||
  decide (72784 ≤ c.toNat ∧ c.toNat ≤ 72793) ||
  decide (73040 ≤ c.toNat ∧ c.toNat ≤ 73049) ||
  decide (73120 ≤ c.toNat ∧ c.toNat ≤ 73129) ||
  decide (92768 ≤ c.toNat ∧ c.toNat ≤ 92777) ||
  decide (92864 ≤ c.toNat ∧ c.toNat ≤ 92873) ||
  decide (93008 ≤ c.toNat ∧ c.toNat ≤ 93017) ||
  decide (120782 ≤ c.toNat ∧ c.toNat ≤ 120831) ||
  decide (123200 ≤ c.toNat ∧ c.toNat ≤ 123209) ||
  decide (123632 ≤ c.toNat ∧ c.toNat ≤ 123641) ||
  decide (125264 ≤ c.toNat ∧ c.toNat ≤ 125273) ||
  decide (130032 ≤ c.toNat ∧ c.toNat ≤ 130041)

/-- `QUOTE_CLEAN_CHARS = "\"'“”‘’`"`: straight double 34, straight
single 39, curly doubles 8220/8221, curly singles 8216/8217, backtick 96. -/
def isQuoteChar (c : Char) : Bool :=
  c.toNat = 34 || c.toNat = 39 || c.toNat = 8220 || c.toNat = 8221 ||
  c.toNat = 8216 || c.toNat = 8217 || c.toNat = 96

/-- Remove the leading run of characters satisfying `p` (one side of
Python `str.strip`). -/
def lstrip (p : Char → Bool) (l : List Char) : List Char :=
  l.dropWhile p

/-- Remove the trailing run of characters satisfying `p` (the other side
of Python `str.strip`). -/
def rstrip (p : Char → Bool) (l : List Char) : List Char :=
  (l.reverse.dropWhile p).reverse

/-- Python `str.strip()` (no argument): drop whitespace from both ends. -/
def pyStrip (l : List Char) : List Char :=
  rstrip isPySpace (lstrip isPySpace l)

/-- Python `str.strip()` on a `String`. -/
def pyStripS (s : String) : String :=
  ⟨pyStrip s.data⟩

/-- Worker for `splitlines`: accumulates the current line (reversed);
at a boundary character the accumulated line is emitted; `afterCR`
records that the previous character was an emitting CR, so that an LF
immediately after it belongs to the same (CRLF) boundary and is skipped;
at the end of input a nonempty accumulated line is emitted. -/
def splitlinesAux : List Char → List Char → Bool → List (List Char)
  | [], acc, _ => if acc.isEmpty then [] else [acc.reverse]
  | c :: rest, acc, afterCR =>
    if afterCR = true ∧ c = '\n' then
      splitlinesAux rest acc false
    else if isLineBoundary c then
      acc.reverse :: splitlinesAux rest [] (c == '\r')
    else splitlinesAux rest (c :: acc) false

/-- Python `str.splitlines()`: split at line-boundary characters, treating
CRLF as a single boundary; a trailing boundary produces no extra line. -/
def splitlines (l : List Char) : List (List Char) :=
  splitlinesAux l [] false

/-- Python `sep.join(parts)` on character lists. -/
def joinSep (sep : List Char) : List (List Char) → List Char
  | [] => []
  | [x] => x
  | x :: xs => x ++ sep ++ joinSep sep xs

/-- Python `sep.join(parts)` on strings. -/
def pyJoin (sep : String) (parts : List String) : String :=
  ⟨joinSep sep.data (parts.map String.data)⟩

/-- Worker for `dedupKeepFirst`, carrying the set of entries already seen. -/
def dedupKeepFirstAux {α : Type} [DecidableEq α] (seen : List α) :
    List α → List α
  | [] => []
  | x :: xs =>
    if x ∈ seen then dedupKeepFirstAux seen xs
    else x :: dedupKeepFirstAux (x :: seen) xs

/-- Python `list(dict.fromkeys(l))`: deduplicate, keeping the first
occurrence of each entry and preserving order. -/
def dedupKeepFirst {α : Type} [DecidableEq α] (l : List α) : List α :=
  dedupKeepFirstAux [] l

/-- `MAX_MENU_ITEMS = 6` from src/app.py. -/
def MAX_MENU_ITEMS : Nat := 6

/-- The substitution `LINE_CLEAN_RE.sub("", line, count=1)` where
`LINE_CLEAN_RE = ^\s*(?:[•\-\*–—]+|\d+[.)\-•]*)?\s*`:
the (always-present, possibly empty) leftmost greedy match consists of a
maximal whitespace run, then either a maximal bullet-glyph run or a
maximal digit run followed by a maximal closer run (or nothing), then a
maximal whitespace run; removing the match removes that prefix. -/
def stripMarker (l : List Char) : List Char :=
  let l1 := l.dropWhile isPySpace
  let l2 :=
    match l1 with
    | [] => l1
    | c :: _ =>
      if isBulletGlyph c then l1.dropWhile isBulletGlyph
      else if isDigitChar c then
        (l1.dropWhile isDigitChar).dropWhile isCloser
      else l1
  l2.dropWhile isPySpace

/-- The per-line body of the `normalize_lines` loop: strip, drop an empty
line, strip one list marker, strip again, drop an empty result. -/
def cleanedLines (l : List Char) : List (List Char) :=
  (splitlines l).filterMap (fun raw =>
    let stripped := pyStrip raw
    if stripped = [] then none
    else
      let normalized := pyStrip (stripMarker stripped)
      if normalized = [] then none else some normalized)

/-- `normalize_lines(text)` from src/app.py: `None`/empty give `[]`;
otherwise split into lines, clean each line, deduplicate keeping first
occurrences, and truncate to `MAX_MENU_ITEMS`. -/
def normalize_lines (text : Option String) : List String :=
  match text with
  | none => []
  | some s =>
    if s = "" then []
    else
      ((dedupKeepFirst (cleanedLines s.data)).take MAX_MENU_ITEMS).map
        (fun l => ⟨l⟩)

/-- `clean_restaurant_name(name)` from src/app.py: `None`/empty give `""`;
otherwise strip whitespace, strip `QUOTE_CLEAN_CHARS` from both ends,
strip whitespace again. -/
def clean_restaurant_name (name : Option String) : String :=
  match name with
  | none => ""
  | some s =>
    if s = "" then ""
    else
      let c1 := pyStrip s.data
      let c2 := rstrip isQuoteChar (lstrip isQuoteChar c1)
      ⟨pyStrip c2⟩

/-- `to_display_list(items, style)` from src/app.py. -/
def to_display_list (items : List String) (style : String) : String :=
  if style = "Bullets" then
    pyJoin "\n" (items.map (fun x => "- " ++ x))
  else if style = "Numbered" then
    pyJoin "\n" ((items.enum).map (fun p => toString (p.1 + 1) ++ ". " ++ p.2))
  else
    pyJoin "\n" items

/-- `to_export_v2(name, items, fmt, slogan, description, drinks)` from
src/app.py.  `drinks or []` maps `None` (and `[]`) to `[]`; a falsy
(empty) slogan/description part is omitted; an empty drinks list renders
the `(none)` placeholder; the assembled string is stripped. -/
def to_export_v2 (name : String) (items : List String) (fmt : String)
    (slogan : String) (description : String)
    (drinks : Option (List String)) : String :=
  let ds := drinks.getD []
  if fmt = "Markdown" then
    let parts : List String :=
      ["## " ++ name]
      ++ (if slogan = "" then [] else ["*" ++ slogan ++ "*"])
      ++ (if description = "" then [] else [description])
      ++ ["\n### Menu Items",
          pyJoin "\n" (items.map (fun x => "- " ++ x)),
          "\n### Drinks"]
      ++ (if ds = [] then ["_(none)_"]
          else [pyJoin "\n" (ds.map (fun x => "- " ++ x))])
    pyStripS (pyJoin "\n\n" parts)
  else
    let parts : List String :=
      [name]
      ++ (if slogan = "" then [] else [slogan])
      ++ (if description = "" then [] else [description])
      ++ ["\nMenu Items"] ++ items ++ ["\nDrinks"]
      ++ (if ds = [] then ["(none)"] else ds)
    pyStripS (pyJoin "\n" parts)

/-- The five prompt templates of src/app.py, used to tag model calls. -/
inductive CallTag : Type
  | name | menu | drinks | slogan | descr
deriving DecidableEq, Repr

/-- A deterministic model-calling capability: one function per sub-chain
of `build_chain` (prompt | llm | parser).  Each either returns text or
fails with an upstream cause.  `callName` takes the cuisine; `callMenu`
and `callDrinks` take (cuisine, restaurant_name); `callSlogan` and
`callDescription` take (restaurant_name, cuisine), mirroring the
prompt templates' input variables. -/
structure ModelCapability : Type where
  callName : String → Except String String
  callMenu : String → String → Except String String
  callDrinks : String → String → Except String String
  callSlogan : String → String → Except String String
  callDescription : String → String → Except String String

/-- The dict produced by a successful `chain.invoke({"cuisine": ...})`:
the passthrough input plus the five assigned keys. -/
structure ChainOutputs : Type where
  cuisine : String
  restaurant_name : String
  menu_items : String
  drink_items : String
  slogan : String
  description : String
deriving DecidableEq, Repr

/-- `build_chain(llm)` followed by `.invoke({"cuisine": cuisine})`: the
sequential `RunnablePassthrough.assign` chain runs name, then menu,
then drinks, then slogan, then description; the first failing call
aborts the chain.  The second component records which calls were
issued, in order. -/
def build_chain_run (cap : ModelCapability) (cuisine : String) :
    Except String ChainOutputs × List CallTag :=
  match cap.callName cuisine with
  | .error e => (.error e, [CallTag.name])
  | .ok n =>
    match cap.callMenu cuisine n with
    | .error e => (.error e, [CallTag.name, CallTag.menu])
    | .ok m =>
      match cap.callDrinks cuisine n with
      | .error e => (.error e, [CallTag.name, CallTag.menu, CallTag.drinks])
      | .ok d =>
        match cap.callSlogan n cuisine with
        | .error e =>
          (.error e, [CallTag.name, CallTag.menu, CallTag.drinks,
                      CallTag.slogan])
        | .ok sl =>
          match cap.callDescription n cuisine with
          | .error e =>
            (.error e, [CallTag.name, CallTag.menu, CallTag.drinks,
                        CallTag.slogan, CallTag.descr])
          | .ok ds =>
            (.ok ⟨cuisine, n, m, d, sl, ds⟩,
             [CallTag.name, CallTag.menu, CallTag.drinks,
              CallTag.slogan, CallTag.descr])

/-- The four step-2 calls of the chain (each depends only on step 1). -/
inductive Stage2 : Type
  | menu | drinks | slogan | descr
deriving DecidableEq, Repr

/-- Partial record of the step-2 outputs gathered so far. -/
structure Stage2Out : Type where
  menu : Option String
  drinks : Option String
  slogan : Option String
  descr : Option String
deriving DecidableEq, Repr

/-- Issue one step-2 call, with the step-1 name threaded in. -/
def callStage2 (cap : ModelCapability) (cuisine n : String) :
    Stage2 → Except String String
  | .menu => cap.callMenu cuisine n
  | .drinks => cap.callDrinks cuisine n
  | .slogan => cap.callSlogan n cuisine
  | .descr => cap.callDescription n cuisine

/-- Record one step-2 output under its key. -/
def setStage2 (st : Stage2Out) (t : Stage2) (v : String) : Stage2Out :=
  match t with
  | .menu => { st with menu := some v }
  | .drinks => { st with drinks := some v }
  | .slogan => { st with slogan := some v }
  | .descr => { st with descr := some v }

/-- One `.assign` step of stage 2: skipped after a failure, otherwise the
call is issued and its output recorded. -/
def stepStage2 (cap : ModelCapability) (cuisine n : String)
    (st : Except String Stage2Out) (t : Stage2) : Except String Stage2Out :=
  match st with
  | .error e => .error e
  | .ok p =>
    match callStage2 cap cuisine n t with
    | .error e => .error e
    | .ok v => .ok (setStage2 p t v)

/-- The order in which `build_chain` issues the four step-2 calls. -/
def stage2Order : List Stage2 :=
  [Stage2.menu, Stage2.drinks, Stage2.slogan, Stage2.descr]

/-- The chain with the four step-2 `.assign` steps issued in an arbitrary
order: step 1 (name) first, then the given sequence of step-2 calls. -/
def build_chain_ordered (cap : ModelCapability) (cuisine : String)
    (order : List Stage2) : Except String (String × Stage2Out) :=
  match cap.callName cuisine with
  | .error e => .error e
  | .ok n =>
    match order.foldl (stepStage2 cap cuisine n) (.ok ⟨none, none, none, none⟩) with
    | .error e => .error e
    | .ok p => .ok (n, p)

/-- Forget the cause of a failure, keeping only the produced value. -/
def exceptToOption {ε α : Type} : Except ε α → Option α
  | .ok a => some a
  | .error _ => none

/-- Whether a computation produced a value. -/
def exceptIsOk {ε α : Type} : Except ε α → Bool
  | .ok _ => true
  | .error _ => false

/-- The step-2 part of a successful full-chain output. -/
def chainStage2Out (o : ChainOutputs) : String × Stage2Out :=
  (o.restaurant_name,
   ⟨some o.menu_items, some o.drink_items, some o.slogan, some o.description⟩)

/-- The validation failures of the run-button handler (§7 of the spec):
`empty_name` for "No restaurant name was returned by the model.",
`empty_menu` for "No menu items were returned by the model.". -/
inductive GenFailure : Type
  | empty_name | empty_menu
deriving DecidableEq, Repr

/-- The assembled generation result displayed and exported by the
handler. -/
structure GenerationResult : Type where
  restaurant_name : String
  menu_items : List String
  drink_items : List String
  slogan : String
  description : String
deriving DecidableEq, Repr

/-- The run-button handler after a successful `chain.invoke` (src/app.py
lines 257-270): clean the name, normalize menu and drinks, strip slogan
and description, fail on an empty name, then on an empty menu, and
otherwise assemble the result. -/
def validate_and_assemble (res : ChainOutputs) : Except GenFailure GenerationResult :=
  let rest_name := clean_restaurant_name (some res.restaurant_name)
  let items := normalize_lines (some res.menu_items)
  let drinks := normalize_lines (some res.drink_items)
  let slogan := pyStripS res.slogan
  let description := pyStripS res.description
  if rest_name = "" then .error GenFailure.empty_name
  else if items = [] then .error GenFailure.empty_menu
  else .ok ⟨rest_name, items, drinks, slogan, description⟩

/-! ### Basic facts about the strip helpers -/

theorem dropWhile_idem (p : Char → Bool) (l : List Char) :
    (l.dropWhile p).dropWhile p = l.dropWhile p := by
  induction l with
  | nil => simp
  | cons x xs ih =>
    by_cases hx : p x
    · simpa [List.dropWhile_cons_of_pos hx] using ih
    · simp [List.dropWhile_cons_of_neg hx, hx]

theorem dropWhile_fix_head {p : Char → Bool} {c : Char} {t : List Char}
    (h : (c :: t).dropWhile p = c :: t) : p c = false := by
  by_cases hc : p c
  · exfalso
    rw [List.dropWhile_cons_of_pos hc] at h
    have hlen := (List.dropWhile_sublist (l := t) p).length_le
    rw [h] at hlen
    simp at hlen
  · simpa using hc

theorem dropWhile_keep_suffix (p : Char → Bool) (a : List Char) {c : Char}
    (b : List Char) (h : p c = false) :
    ∃ a1, (a ++ c :: b).dropWhile p = a1 ++ c :: b := by
  induction a with
  | nil =>
    refine ⟨[], ?_⟩
    have hc : ¬ (p c = true) := by simp [h]
    simp [List.dropWhile_cons_of_neg hc]
  | cons x xs ih =>
    by_cases hx : p x
    · simpa [List.dropWhile_cons_of_pos hx] using ih
    · exact ⟨x :: xs, by simp [List.dropWhile_cons_of_neg hx]⟩

theorem rstrip_append_eq (p : Char → Bool) (l : List Char) :
    rstrip p l ++ (l.reverse.takeWhile p).reverse = l := by
  unfold rstrip
  calc (l.reverse.dropWhile p).reverse ++ (l.reverse.takeWhile p).reverse
      = ((l.reverse.takeWhile p) ++ (l.reverse.dropWhile p)).reverse := by
        rw [List.reverse_append]
    _ = l.reverse.reverse := by rw [List.takeWhile_append_dropWhile]
    _ = l := List.reverse_reverse l

theorem rstrip_idem (p : Char → Bool) (l : List Char) :
    rstrip p (rstrip p l) = rstrip p l := by
  unfold rstrip
  rw [List.reverse_reverse, dropWhile_idem]

theorem rstrip_eq_self_of_getLast (p : Char → Bool) (l : List Char)
    (h : ∀ c, l.getLast? = some c → p c = false) : rstrip p l = l := by
  cases hl : l.reverse with
  | nil =>
    have : l = [] := by simpa using congrArg List.reverse hl
    simp [rstrip, this]
  | cons c t =>
    have hc : l.getLast? = some c := by
      rw [← List.head?_reverse, hl]
      rfl
    have hpc : p c = false := h c hc
    unfold rstrip
    rw [hl, List.dropWhile_cons_of_neg (by simp [hpc]), ← hl,
      List.reverse_reverse]

theorem mem_of_mem_rstrip {p : Char → Bool} {l : List Char} {c : Char}
    (h : c ∈ rstrip p l) : c ∈ l := by
  unfold rstrip at h
  rw [List.mem_reverse] at h
  have := (List.dropWhile_sublist (l := l.reverse) p).subset h
  rwa [List.mem_reverse] at this

theorem mem_of_mem_lstrip {p : Char → Bool} {l : List Char} {c : Char}
    (h : c ∈ lstrip p l) : c ∈ l :=
  (List.dropWhile_sublist (l := l) p).subset h

theorem mem_of_mem_pyStrip {l : List Char} {c : Char}
    (h : c ∈ pyStrip l) : c ∈ l :=
  mem_of_mem_lstrip (mem_of_mem_rstrip h)

theorem lstrip_rstrip_of_fix {p : Char → Bool} {l : List Char}
    (h : l.dropWhile p = l) : lstrip p (rstrip p l) = rstrip p l := by
  cases hz : rstrip p l with
  | nil => simp [lstrip]
  | cons c r =>
    have hpre := rstrip_append_eq p l
    rw [hz] at hpre
    rw [← hpre] at h
    have hc : p c = false := by
      rw [List.dropWhile_append] at h
      by_cases hpc : p c
      · exfalso
        rw [List.dropWhile_cons_of_pos hpc] at h
        by_cases he : (r.dropWhile p).isEmpty
        · rw [if_pos (by simpa using he)] at h
          have := (List.dropWhile_sublist
            (l := (l.reverse.takeWhile p).reverse) p).length_le
          rw [h] at this
          simp at this
          omega
        · rw [if_neg (by simpa using he)] at h
          have hlen := congrArg List.length h
          have := (List.dropWhile_sublist (l := r) p).length_le
          simp at hlen
          omega
      · simpa using hpc
    have hc' : ¬ (p c = true) := by simp [hc]
    simp [lstrip, List.dropWhile_cons_of_neg hc']

theorem pyStrip_idem (l : List Char) : pyStrip (pyStrip l) = pyStrip l := by
  unfold pyStrip
  have h1 : (lstrip isPySpace l).dropWhile isPySpace = lstrip isPySpace l :=
    dropWhile_idem _ l
  rw [lstrip_rstrip_of_fix h1, rstrip_idem]

/-! ### joinSep, splitlines and dedupKeepFirst -/

theorem joinSep_cons (sep x : List Char) (xs : List (List Char))
    (h : xs ≠ []) : joinSep sep (x :: xs) = x ++ sep ++ joinSep sep xs := by
  cases xs with
  | nil => exact absurd rfl h
  | cons y t => rfl

theorem joinSep_append_last (sep : List Char) (A : List (List Char))
    (x : List Char) (h : A ≠ []) :
    joinSep sep (A ++ [x]) = joinSep sep A ++ sep ++ x := by
  induction A with
  | nil => exact absurd rfl h
  | cons a t ih =>
    cases t with
    | nil => simp [joinSep]
    | cons b u =>
      rw [List.cons_append, joinSep_cons sep a ((b :: u) ++ [x]) (by simp),
        joinSep_cons sep a (b :: u) (by simp), ih (by simp)]
      simp

theorem splitlinesAux_nil (acc : List Char) (b : Bool) :
    splitlinesAux [] acc b = if acc.isEmpty then [] else [acc.reverse] := rfl

theorem splitlinesAux_cons_nb {c : Char} (h : isLineBoundary c = false)
    (rest acc : List Char) (b : Bool) :
    splitlinesAux (c :: rest) acc b = splitlinesAux rest (c :: acc) false := by
  have hn : c ≠ '\n' := by
    intro e
    subst e
    exact absurd h (by decide)
  simp only [splitlinesAux]
  rw [if_neg (by simp [hn]), if_neg (by simp [h])]

theorem splitlinesAux_cons_lf (rest acc : List Char) :
    splitlinesAux ('\n' :: rest) acc false =
      acc.reverse :: splitlinesAux rest [] false := by
  simp only [splitlinesAux]
  rw [if_neg (by simp), if_pos (by decide),
    show (('\n' : Char) == '\r') = false from by decide]

theorem splitlinesAux_accumulate (y : List Char) (hyne : y ≠ [])
    (hy : ∀ c ∈ y, isLineBoundary c = false) :
    ∀ rest acc b, splitlinesAux (y ++ rest) acc b =
      splitlinesAux rest (y.reverse ++ acc) false := by
  induction y with
  | nil => exact absurd rfl hyne
  | cons c t ih =>
    intro rest acc b
    have hc : isLineBoundary c = false := hy c (by simp)
    rw [List.cons_append, splitlinesAux_cons_nb hc]
    cases t with
    | nil => simp
    | cons d u =>
      rw [ih (by simp) (fun e he => hy e (by simp [he])) rest (c :: acc)]
      simp

theorem splitlines_join (ys : List (List Char)) (hne : ys ≠ [])
    (h1 : ∀ y ∈ ys, y ≠ [])
    (h2 : ∀ y ∈ ys, ∀ c ∈ y, isLineBoundary c = false) :
    splitlines (joinSep ['\n'] ys) = ys := by
  induction ys with
  | nil => exact absurd rfl hne
  | cons y t ih =>
    have hyne : y ≠ [] := h1 y (by simp)
    cases t with
    | nil =>
      unfold splitlines
      rw [show joinSep ['\n'] [y] = y from rfl]
      rw [show (y : List Char) = y ++ [] by simp]
      rw [splitlinesAux_accumulate y hyne
        (fun c hc => h2 y (by simp) c hc) [] [] false]
      rw [splitlinesAux_nil]
      have hie : (y.reverse ++ ([] : List Char)).isEmpty = false := by
        simp [List.isEmpty_iff, hyne]
      rw [hie]
      simp
    | cons z u =>
      unfold splitlines
      rw [joinSep_cons ['\n'] y (z :: u) (by simp)]
      rw [List.append_assoc,
        splitlinesAux_accumulate y hyne (fun c hc => h2 y (by simp) c hc) _ [] false]
      rw [show ('\n' :: []) ++ joinSep ['\n'] (z :: u) =
        '\n' :: joinSep ['\n'] (z :: u) from rfl]
      rw [splitlinesAux_cons_lf]
      have ihz := ih (by simp)
        (fun w hw => h1 w (by simp [hw]))
        (fun w hw c hc => h2 w (by simp [hw]) c hc)
      unfold splitlines at ihz
      rw [ihz]
      simp

theorem splitlinesAux_bf (l acc : List Char) (b : Bool)
    (hacc : ∀ c ∈ acc, isLineBoundary c = false) :
    ∀ y ∈ splitlinesAux l acc b, ∀ c ∈ y, isLineBoundary c = false := by
  induction l, acc, b using splitlinesAux.induct with
  | case1 acc b hemp =>
    rw [splitlinesAux_nil, if_pos hemp]
    simp
  | case2 acc b hemp =>
    rw [splitlinesAux_nil, if_neg hemp]
    intro y hy c hc
    have hya : y = acc.reverse := by simpa using hy
    subst hya
    exact hacc c (by simpa using hc)
  | case3 c rest acc b hcond ih =>
    simp only [splitlinesAux]
    rw [if_pos hcond]
    exact ih hacc
  | case4 c rest acc b hcond hb ih =>
    simp only [splitlinesAux]
    rw [if_neg hcond, if_pos hb]
    intro y hy d hd
    rcases List.mem_cons.mp hy with h | h
    · subst h
      exact hacc d (by simpa using hd)
    · exact ih (by simp) y h d hd
  | case5 c rest acc b hcond hb ih =>
    simp only [splitlinesAux]
    rw [if_neg hcond, if_neg hb]
    intro y hy d hd
    refine ih ?_ y hy d hd
    intro e he
    rcases List.mem_cons.mp he with h | h
    · subst h
      simpa using hb
    · exact hacc e h

theorem mem_of_mem_splitlines {l y : List Char} (hy : y ∈ splitlines l) :
    ∀ c ∈ y, isLineBoundary c = false :=
  splitlinesAux_bf l [] false (by simp) y hy

theorem mem_of_mem_stripMarker {l : List Char} {c : Char}
    (h : c ∈ stripMarker l) : c ∈ l := by
  have hsub : ∀ (p : Char → Bool) (z : List Char),
      c ∈ List.dropWhile p z → c ∈ z :=
    fun p z hz => (List.dropWhile_sublist p).subset hz
  unfold stripMarker at h
  simp only at h
  have h2 := hsub isPySpace _ h
  split at h2
  · exact hsub isPySpace _ h2
  · split at h2
    · exact hsub isPySpace _ (hsub isBulletGlyph _ h2)
    · split at h2
      · exact hsub isPySpace _ (hsub isDigitChar _ (hsub isCloser _ h2))
      · exact hsub isPySpace _ h2

/-! ### dedupKeepFirst -/

theorem mem_of_mem_dedupAux {α : Type} [DecidableEq α] (l : List α) :
    ∀ (seen : List α) (x : α), x ∈ dedupKeepFirstAux seen l → x ∈ l := by
  induction l with
  | nil => intro seen x hx; simp [dedupKeepFirstAux] at hx
  | cons y t ih =>
    intro seen x hx
    by_cases hy : y ∈ seen
    · rw [dedupKeepFirstAux, if_pos hy] at hx
      exact List.mem_cons_of_mem _ (ih seen x hx)
    · rw [dedupKeepFirstAux, if_neg hy] at hx
      rcases List.mem_cons.mp hx with h | h
      · simp [h]
      · exact List.mem_cons_of_mem _ (ih (y :: seen) x h)

theorem not_mem_seen_dedupAux {α : Type} [DecidableEq α] (l : List α) :
    ∀ (seen : List α) (x : α), x ∈ dedupKeepFirstAux seen l → x ∉ seen := by
  induction l with
  | nil => intro seen x hx; simp [dedupKeepFirstAux] at hx
  | cons y t ih =>
    intro seen x hx
    by_cases hy : y ∈ seen
    · rw [dedupKeepFirstAux, if_pos hy] at hx
      exact ih seen x hx
    · rw [dedupKeepFirstAux, if_neg hy] at hx
      rcases List.mem_cons.mp hx with h | h
      · subst h; exact hy
      · intro hmem
        exact ih (y :: seen) x h (List.mem_cons_of_mem _ hmem)

theorem nodup_dedupAux {α : Type} [DecidableEq α] (l : List α) :
    ∀ seen : List α, (dedupKeepFirstAux seen l).Nodup := by
  induction l with
  | nil => intro seen; simp [dedupKeepFirstAux]
  | cons y t ih =>
    intro seen
    by_cases hy : y ∈ seen
    · rw [dedupKeepFirstAux, if_pos hy]
      exact ih seen
    · rw [dedupKeepFirstAux, if_neg hy]
      refine List.Nodup.cons ?_ (ih (y :: seen))
      intro hmem
      exact not_mem_seen_dedupAux t (y :: seen) y hmem (by simp)

theorem dedupAux_eq_self {α : Type} [DecidableEq α] (l : List α) :
    ∀ seen : List α, l.Nodup → (∀ x ∈ l, x ∉ seen) →
      dedupKeepFirstAux seen l = l := by
  induction l with
  | nil => intro seen _ _; rfl
  | cons y t ih =>
    intro seen hnd hsep
    have hy : y ∉ seen := hsep y (by simp)
    rw [dedupKeepFirstAux, if_neg hy]
    have hnd' := List.Nodup.of_cons hnd
    have hyt : y ∉ t := (List.nodup_cons.mp hnd).1
    rw [ih (y :: seen) hnd' ?_]
    intro x hx
    intro hmem
    rcases List.mem_cons.mp hmem with h | h
    · subst h; exact hyt hx
    · exact hsep x (by simp [hx]) h

theorem dedupKeepFirst_eq_self {α : Type} [DecidableEq α] {l : List α}
    (h : l.Nodup) : dedupKeepFirst l = l :=
  dedupAux_eq_self l [] h (by simp)

/-! ### Properties of the normalizer output -/

theorem mem_cleanedLines {l y : List Char} (hy : y ∈ cleanedLines l) :
    y ≠ [] ∧ pyStrip y = y ∧ ∀ c ∈ y, isLineBoundary c = false := by
  unfold cleanedLines at hy
  rw [List.mem_filterMap] at hy
  obtain ⟨raw, hraw, hf⟩ := hy
  simp only at hf
  by_cases h1 : pyStrip raw = []
  · rw [if_pos h1] at hf
    exact absurd hf (by simp)
  · rw [if_neg h1] at hf
    by_cases h2 : pyStrip (stripMarker (pyStrip raw)) = []
    · rw [if_pos h2] at hf
      exact absurd hf (by simp)
    · rw [if_neg h2] at hf
      have hy2 : pyStrip (stripMarker (pyStrip raw)) = y := by
        simpa using hf
      subst hy2
      refine ⟨h2, pyStrip_idem _, ?_⟩
      intro c hc
      have hcr : c ∈ raw :=
        mem_of_mem_pyStrip (mem_of_mem_stripMarker (mem_of_mem_pyStrip hc))
      exact mem_of_mem_splitlines hraw c hcr

theorem normalize_lines_mem_props {t : Option String} {s : String}
    (hs : s ∈ normalize_lines t) :
    s.data ≠ [] ∧ pyStrip s.data = s.data ∧
      ∀ c ∈ s.data, isLineBoundary c = false := by
  cases t with
  | none => simp [normalize_lines] at hs
  | some str =>
    simp only [normalize_lines] at hs
    by_cases he : str = ""
    · rw [if_pos he] at hs
      simp at hs
    · rw [if_neg he] at hs
      rw [List.mem_map] at hs
      obtain ⟨y, hy, hmk⟩ := hs
      have hy2 : y ∈ dedupKeepFirst (cleanedLines str.data) :=
        (List.take_sublist _ _).subset hy
      have hy3 : y ∈ cleanedLines str.data :=
        mem_of_mem_dedupAux _ _ _ hy2
      have hprops := mem_cleanedLines hy3
      have hdata : s.data = y := by
        rw [← hmk]
      rw [hdata]
      exact hprops

theorem normalize_lines_nodup (t : Option String) :
    (normalize_lines t).Nodup := by
  cases t with
  | none => simp [normalize_lines]
  | some str =>
    simp only [normalize_lines]
    by_cases he : str = ""
    · rw [if_pos he]
      simp
    · rw [if_neg he]
      refine List.Nodup.map ?_ ?_
      · intro a b hab
        have := congrArg String.data hab
        simpa using this
      · exact List.Nodup.sublist (List.take_sublist _ _)
          (nodup_dedupAux (cleanedLines str.data) [])

theorem normalize_lines_length (t : Option String) :
    (normalize_lines t).length ≤ MAX_MENU_ITEMS := by
  cases t with
  | none => simp [normalize_lines]
  | some str =>
    simp only [normalize_lines]
    by_cases he : str = ""
    · rw [if_pos he]
      simp
    · rw [if_neg he]
      rw [List.length_map]
      calc (((dedupKeepFirst (cleanedLines str.data)).take
              MAX_MENU_ITEMS)).length
          ≤ MAX_MENU_ITEMS := by
            rw [List.length_take]
            exact Nat.min_le_left _ _

theorem joinSep_ne_nil (sep y : List Char) (t : List (List Char))
    (hy : y ≠ []) : joinSep sep (y :: t) ≠ [] := by
  cases t with
  | nil => simpa [joinSep] using hy
  | cons z u =>
    rw [joinSep_cons sep y (z :: u) (by simp)]
    simp [hy]

theorem filterMap_id_of_some {α : Type} (f : α → Option α) (l : List α)
    (h : ∀ x ∈ l, f x = some x) : l.filterMap f = l := by
  induction l with
  | nil => rfl
  | cons x t ih =>
    rw [List.filterMap_cons_some (h x (by simp)),
      ih (fun z hz => h z (by simp [hz]))]

theorem normalize_lines_join (ys : List String)
    (h1 : ∀ s ∈ ys, s.data ≠ [])
    (h2 : ∀ s ∈ ys, ∀ c ∈ s.data, isLineBoundary c = false)
    (h3 : ∀ s ∈ ys, pyStrip s.data = s.data)
    (h4 : ∀ s ∈ ys, stripMarker s.data = s.data)
    (h5 : ys.Nodup) (h6 : ys.length ≤ MAX_MENU_ITEMS) :
    normalize_lines (some (pyJoin "\n" ys)) = ys := by
  cases ys with
  | nil => rfl
  | cons y t =>
    have hdata : (pyJoin "\n" (y :: t)).data =
        joinSep ['\n'] ((y :: t).map String.data) := rfl
    have hjne : joinSep ['\n'] ((y :: t).map String.data) ≠ [] := by
      rw [List.map_cons]
      exact joinSep_ne_nil _ _ _ (h1 y (by simp))
    simp only [normalize_lines]
    rw [if_neg (fun he => hjne (by simpa [hdata] using congrArg String.data he))]
    have hsplit : splitlines (pyJoin "\n" (y :: t)).data =
        (y :: t).map String.data := by
      rw [hdata]
      refine splitlines_join _ (by simp) ?_ ?_
      · intro w hw
        rw [List.mem_map] at hw
        obtain ⟨s, hs, rfl⟩ := hw
        exact h1 s hs
      · intro w hw c hc
        rw [List.mem_map] at hw
        obtain ⟨s, hs, rfl⟩ := hw
        exact h2 s hs c hc
    have hclean : cleanedLines (pyJoin "\n" (y :: t)).data =
        (y :: t).map String.data := by
      unfold cleanedLines
      rw [hsplit]
      refine filterMap_id_of_some _ _ ?_
      intro w hw
      rw [List.mem_map] at hw
      obtain ⟨s, hs, rfl⟩ := hw
      simp only [h3 s hs, h4 s hs, if_neg (h1 s hs)]
    rw [hclean]
    have hnd : ((y :: t).map String.data).Nodup := by
      refine List.Nodup.map ?_ h5
      intro a b hab
      have ha : (⟨a.data⟩ : String) = a := by cases a; rfl
      have hb : (⟨b.data⟩ : String) = b := by cases b; rfl
      rw [← ha, ← hb, hab]
    rw [dedupKeepFirst_eq_self hnd]
    rw [List.take_of_length_le (by simpa using h6)]
    rw [List.map_map]
    have : ((fun l => (⟨l⟩ : String)) ∘ String.data) = id := by
      funext s
      cases s
      rfl
    rw [this, List.map_id]

/-! ### Claim theorems -/

/-- C2: for every input string, and for absent (`none`) input,
`normalize_lines` returns a list of length at most 6 that contains no
duplicate entries under exact string equality and no empty-string
entries; it is a total function (a Lean function by construction) and
returns `[]` on `none`. -/
theorem C2_normalize_lines_bounds (t : Option String) :
    (normalize_lines t).length ≤ 6 ∧ (normalize_lines t).Nodup ∧
    (∀ s ∈ normalize_lines t, s ≠ "") ∧ normalize_lines none = [] := by
  refine ⟨normalize_lines_length t, normalize_lines_nodup t, ?_, rfl⟩
  intro s hs he
  have h := (normalize_lines_mem_props hs).1
  apply h
  rw [he]

/-- C2 witness: the bounds and the no-empty-entry property evaluated at a
concrete input. -/
theorem C2_normalize_lines_bounds_witness :
    (normalize_lines (some "- Pad Thai\n2. Tom Yum")).length ≤ 6 ∧
    ("Pad Thai" : String) ≠ "" :=
  ⟨(C2_normalize_lines_bounds (some "- Pad Thai\n2. Tom Yum")).1,
   (C2_normalize_lines_bounds (some "- Pad Thai\n2. Tom Yum")).2.2.1
     "Pad Thai" (by decide)⟩

/-- C4: `normalize_lines` is idempotent on its own output: for every
string `x` whose normalized lines contain no further list marker,
normalizing the newline-join of `normalize_lines x` returns
`normalize_lines x` unchanged. -/
theorem C4_normalize_lines_idempotent (x : String)
    (h : ∀ s ∈ normalize_lines (some x), stripMarker s.data = s.data) :
    normalize_lines (some (pyJoin "\n" (normalize_lines (some x)))) =
      normalize_lines (some x) := by
  refine normalize_lines_join _ ?_ ?_ ?_ h (normalize_lines_nodup _)
    (normalize_lines_length _)
  · intro s hs
    exact (normalize_lines_mem_props hs).1
  · intro s hs
    exact (normalize_lines_mem_props hs).2.2
  · intro s hs
    exact (normalize_lines_mem_props hs).2.1

/-- C4 witness: idempotence evaluated at a concrete input with list
markers on each line. -/
theorem C4_normalize_lines_idempotent_witness :
    normalize_lines
        (some (pyJoin "\n" (normalize_lines (some "- Pad Thai\n2. Tom Yum")))) =
      normalize_lines (some "- Pad Thai\n2. Tom Yum") :=
  C4_normalize_lines_idempotent "- Pad Thai\n2. Tom Yum" (by decide)

/-! ### Export formatter facts -/

theorem joinSep_last_two (sep : List Char) (A : List (List Char))
    (x y : List Char) (hA : A ≠ []) :
    joinSep sep (A ++ [x, y]) = joinSep sep A ++ sep ++ x ++ sep ++ y := by
  have h1 : A ++ [x, y] = (A ++ [x]) ++ [y] := by simp
  rw [h1, joinSep_append_last sep (A ++ [x]) y (by simp),
    joinSep_append_last sep A x hA]

theorem pyStrip_append_keep (a : List Char) {c : Char} {t : List Char}
    (hc : isPySpace c = false)
    (hlast : ∀ d, (c :: t).getLast? = some d → isPySpace d = false) :
    ∃ a1, pyStrip (a ++ c :: t) = a1 ++ c :: t := by
  obtain ⟨a1, h1⟩ := dropWhile_keep_suffix isPySpace a t hc
  refine ⟨a1, ?_⟩
  unfold pyStrip lstrip
  rw [h1]
  apply rstrip_eq_self_of_getLast
  intro d hd
  rcases hg : (c :: t).getLast? with _ | e
  · rw [List.getLast?_eq_none_iff] at hg
    exact absurd hg (by simp)
  · rw [List.getLast?_append, hg] at hd
    simp only [Option.or_some] at hd
    have hde : e = d := by simpa using hd
    subst hde
    exact hlast e hg

theorem export_empty_drinks_plain (name : String) (items : List String)
    (fmt slogan description : String) (drinks : Option (List String))
    (hd : drinks.getD [] = []) (hf : fmt ≠ "Markdown") :
    ∃ a, (to_export_v2 name items fmt slogan description drinks).data =
      a ++ ("Drinks\n(none)".data) := by
  unfold to_export_v2
  rw [hd, if_neg hf, if_pos rfl]
  have hparts :
      ([name]
        ++ (if slogan = "" then [] else [slogan])
        ++ (if description = "" then [] else [description])
        ++ ["\nMenu Items"] ++ items ++ ["\nDrinks"] ++ ["(none)"]) =
      ([name]
        ++ (if slogan = "" then [] else [slogan])
        ++ (if description = "" then [] else [description])
        ++ ["\nMenu Items"] ++ items) ++ ["\nDrinks", "(none)"] := by
    simp
  rw [hparts]
  have hjoin : (pyJoin "\n"
      (([name]
        ++ (if slogan = "" then [] else [slogan])
        ++ (if description = "" then [] else [description])
        ++ ["\nMenu Items"] ++ items) ++ ["\nDrinks", "(none)"])).data =
      joinSep ['\n']
        ((([name]
          ++ (if slogan = "" then [] else [slogan])
          ++ (if description = "" then [] else [description])
          ++ ["\nMenu Items"] ++ items).map String.data)
          ++ ["\nDrinks".data, "(none)".data]) := by
    unfold pyJoin
    rw [List.map_append]
    rfl
  rw [show ∀ z : List String, (pyStripS (pyJoin "\n" z)).data =
      pyStrip (pyJoin "\n" z).data from fun z => rfl]
  rw [hjoin]
  rw [joinSep_last_two ['\n'] _ _ _ (by simp)]
  have hsfx :
      joinSep ['\n']
        (([name]
          ++ (if slogan = "" then [] else [slogan])
          ++ (if description = "" then [] else [description])
          ++ ["\nMenu Items"] ++ items).map String.data)
        ++ ['\n'] ++ "\nDrinks".data ++ ['\n'] ++ "(none)".data =
      (joinSep ['\n']
        (([name]
          ++ (if slogan = "" then [] else [slogan])
          ++ (if description = "" then [] else [description])
          ++ ["\nMenu Items"] ++ items).map String.data)
        ++ ['\n', '\n']) ++ "Drinks\n(none)".data := by
    rw [show ("\nDrinks".data : List Char) = '\n' :: "Drinks".data from rfl,
      show ("Drinks\n(none)".data : List Char) =
        "Drinks".data ++ '\n' :: "(none)".data from by decide]
    simp
  rw [hsfx]
  exact pyStrip_append_keep _ (by decide) (by decide)

theorem export_empty_drinks_md (name : String) (items : List String)
    (slogan description : String) (drinks : Option (List String))
    (hd : drinks.getD [] = []) :
    ∃ a, (to_export_v2 name items "Markdown" slogan description drinks).data =
      a ++ ("Drinks\n\n_(none)_".data) := by
  unfold to_export_v2
  rw [hd, if_pos rfl, if_pos rfl]
  have hparts :
      (["## " ++ name]
        ++ (if slogan = "" then [] else ["*" ++ slogan ++ "*"])
        ++ (if description = "" then [] else [description])
        ++ ["\n### Menu Items",
            pyJoin "\n" (items.map (fun x => "- " ++ x)),
            "\n### Drinks"]
        ++ ["_(none)_"]) =
      (["## " ++ name]
        ++ (if slogan = "" then [] else ["*" ++ slogan ++ "*"])
        ++ (if description = "" then [] else [description])
        ++ ["\n### Menu Items",
            pyJoin "\n" (items.map (fun x => "- " ++ x))])
        ++ ["\n### Drinks", "_(none)_"] := by
    simp
  rw [hparts]
  rw [show ∀ z : List String, (pyStripS (pyJoin "\n\n" z)).data =
      pyStrip (pyJoin "\n\n" z).data from fun z => rfl]
  have hjoin : (pyJoin "\n\n"
      ((["## " ++ name]
        ++ (if slogan = "" then [] else ["*" ++ slogan ++ "*"])
        ++ (if description = "" then [] else [description])
        ++ ["\n### Menu Items",
            pyJoin "\n" (items.map (fun x => "- " ++ x))])
        ++ ["\n### Drinks", "_(none)_"])).data =
      joinSep ['\n', '\n']
        (((["## " ++ name]
          ++ (if slogan = "" then [] else ["*" ++ slogan ++ "*"])
          ++ (if description = "" then [] else [description])
          ++ ["\n### Menu Items",
              pyJoin "\n" (items.map (fun x => "- " ++ x))]).map String.data)
          ++ ["\n### Drinks".data, "_(none)_".data]) := by
    unfold pyJoin
    rw [List.map_append]
    rfl
  rw [hjoin]
  rw [joinSep_last_two ['\n', '\n'] _ _ _ (by simp)]
  have hsfx :
      joinSep ['\n', '\n']
        ((["## " ++ name]
          ++ (if slogan = "" then [] else ["*" ++ slogan ++ "*"])
          ++ (if description = "" then [] else [description])
          ++ ["\n### Menu Items",
              pyJoin "\n" (items.map (fun x => "- " ++ x))]).map String.data)
        ++ ['\n', '\n'] ++ "\n### Drinks".data ++ ['\n', '\n']
        ++ "_(none)_".data =
      (joinSep ['\n', '\n']
        ((["## " ++ name]
          ++ (if slogan = "" then [] else ["*" ++ slogan ++ "*"])
          ++ (if description = "" then [] else [description])
          ++ ["\n### Menu Items",
              pyJoin "\n" (items.map (fun x => "- " ++ x))]).map String.data)
        ++ ['\n', '\n'] ++ "\n### ".data) ++ "Drinks\n\n_(none)_".data := by
    rw [show ("\n### Drinks".data : List Char) =
        "\n### ".data ++ "Drinks".data from by decide,
      show ("Drinks\n\n_(none)_".data : List Char) =
        "Drinks".data ++ '\n' :: '\n' :: "_(none)_".data from by decide]
    simp
  rw [hsfx]
  exact pyStrip_append_keep _ (by decide) (by decide)

/-- C7: for every generation result whose drinks list is empty, the
export output of `to_export_v2` ends with a `Drinks` section followed by
the literal `(none)` placeholder, in the markdown style (rendered
`_(none)_`) and in the plain style (rendered `(none)`). -/
theorem C7_export_empty_drinks_placeholder (name : String)
    (items : List String) (fmt slogan description : String)
    (drinks : Option (List String)) (hd : drinks.getD [] = []) :
    (fmt = "Markdown" →
      ∃ a, (to_export_v2 name items fmt slogan description drinks).data =
        a ++ ("Drinks\n\n_(none)_".data)) ∧
    (fmt ≠ "Markdown" →
      ∃ a, (to_export_v2 name items fmt slogan description drinks).data =
        a ++ ("Drinks\n(none)".data)) := by
  constructor
  · intro h
    subst h
    exact export_empty_drinks_md name items slogan description drinks hd
  · intro h
    exact export_empty_drinks_plain name items fmt slogan description
      drinks hd h

/-- C7 witness: both styles evaluated with an empty drinks list. -/
theorem C7_export_empty_drinks_placeholder_witness :
    (∃ a, (to_export_v2 "Casa" ["Tacos"] "Text" "" "" (some [])).data =
      a ++ ("Drinks\n(none)".data)) ∧
    (∃ a, (to_export_v2 "Casa" ["Tacos"] "Markdown" "" "" (some [])).data =
      a ++ ("Drinks\n\n_(none)_".data)) :=
  ⟨(C7_export_empty_drinks_placeholder "Casa" ["Tacos"] "Text" "" ""
      (some []) rfl).2 (by decide),
   (C7_export_empty_drinks_placeholder "Casa" ["Tacos"] "Markdown" "" ""
      (some []) rfl).1 rfl⟩

/-- C9: `to_export_v2` with absent (`none`) drinks returns exactly the
same string as with an empty drinks list (`drinks or []` maps both to
`[]`), and in both cases the Drinks section renders the `(none)`
placeholder. -/
theorem C9_export_drinks_none_eq_empty (name : String) (items : List String)
    (fmt slogan description : String) :
    to_export_v2 name items fmt slogan description none =
      to_export_v2 name items fmt slogan description (some []) ∧
    (fmt = "Markdown" →
      ∃ a, (to_export_v2 name items fmt slogan description none).data =
        a ++ ("Drinks\n\n_(none)_".data)) ∧
    (fmt ≠ "Markdown" →
      ∃ a, (to_export_v2 name items fmt slogan description none).data =
        a ++ ("Drinks\n(none)".data)) := by
  refine ⟨rfl, ?_, ?_⟩
  · intro h
    subst h
    exact export_empty_drinks_md name items slogan description none rfl
  · intro h
    exact export_empty_drinks_plain name items fmt slogan description
      none rfl h

/-- C9 witness: equality and plain-style placeholder at a concrete
input. -/
theorem C9_export_drinks_none_eq_empty_witness :
    to_export_v2 "Casa" ["Tacos"] "Text" "" "" none =
      to_export_v2 "Casa" ["Tacos"] "Text" "" "" (some []) ∧
    (∃ a, (to_export_v2 "Casa" ["Tacos"] "Text" "" "" none).data =
      a ++ ("Drinks\n(none)".data)) :=
  ⟨(C9_export_drinks_none_eq_empty "Casa" ["Tacos"] "Text" "" "").1,
   (C9_export_drinks_none_eq_empty "Casa" ["Tacos"] "Text" "" "").2.2
     (by decide)⟩

/-- C10: for every style other than "Bullets" and "Numbered" (including
unrecognized styles and the empty string), `to_display_list` joins the
items by newlines with no per-item marker; it is total over all style
strings. -/
theorem C10_to_display_list_default (items : List String) (style : String)
    (h1 : style ≠ "Bullets") (h2 : style ≠ "Numbered") :
    to_display_list items style = pyJoin "\n" items := by
  unfold to_display_list
  rw [if_neg h1, if_neg h2]

/-- C10 witness: the fall-through branch evaluated at the UI's
"Plain lines" style and at an unrecognized style. -/
theorem C10_to_display_list_default_witness :
    to_display_list ["Tacos", "Elote"] "Plain lines" = "Tacos\nElote" ∧
    to_display_list ["Tacos", "Elote"] "Fancy" = "Tacos\nElote" := by
  constructor
  · rw [C10_to_display_list_default ["Tacos", "Elote"] "Plain lines"
      (by decide) (by decide)]
    decide
  · rw [C10_to_display_list_default ["Tacos", "Elote"] "Fancy"
      (by decide) (by decide)]
    decide

theorem append_around_trans {z m r : List Char}
    (h1 : ∃ a b, z = a ++ m ++ b) (h2 : ∃ a b, m = a ++ r ++ b) :
    ∃ a b, z = a ++ r ++ b := by
  obtain ⟨a1, b1, hz⟩ := h1
  obtain ⟨a2, b2, hm⟩ := h2
  refine ⟨a1 ++ a2, b2 ++ b1, ?_⟩
  rw [hz, hm]
  simp [List.append_assoc]

theorem exists_around_stripPair (p : Char → Bool) (z : List Char) :
    ∃ a b, z = a ++ rstrip p (lstrip p z) ++ b := by
  refine ⟨z.takeWhile p, ((z.dropWhile p).reverse.takeWhile p).reverse, ?_⟩
  have h2 := rstrip_append_eq p (z.dropWhile p)
  calc z = z.takeWhile p ++ z.dropWhile p :=
        (List.takeWhile_append_dropWhile p z).symm
    _ = z.takeWhile p ++ (rstrip p (z.dropWhile p) ++
        ((z.dropWhile p).reverse.takeWhile p).reverse) := by rw [h2]
    _ = z.takeWhile p ++ rstrip p (lstrip p z) ++
        ((z.dropWhile p).reverse.takeWhile p).reverse := by
        rw [show lstrip p z = z.dropWhile p from rfl]
        simp [List.append_assoc]

/-- C8: `clean_restaurant_name` is total: it maps absent and empty input
to `""`; its result carries no leading or trailing whitespace (it is a
fixed point of stripping) and is a contiguous fragment of the input (the
strips only remove characters from the two ends); and on the string
consisting of a space, a double-quoted Spice Route, and two trailing
spaces it returns exactly `Spice Route` with no quotes. -/
theorem C8_clean_restaurant_name :
    (∀ s : String,
      pyStrip (clean_restaurant_name (some s)).data =
        (clean_restaurant_name (some s)).data ∧
      ∃ a b : List Char,
        s.data = a ++ (clean_restaurant_name (some s)).data ++ b) ∧
    clean_restaurant_name none = "" ∧
    clean_restaurant_name (some "") = "" ∧
    clean_restaurant_name (some " \"Spice Route\"  ") = "Spice Route" := by
  refine ⟨?_, rfl, rfl, by decide⟩
  intro s
  by_cases he : s = ""
  · subst he
    exact ⟨rfl, [], [], rfl⟩
  · have hc : clean_restaurant_name (some s) =
        ⟨pyStrip (rstrip isQuoteChar (lstrip isQuoteChar (pyStrip s.data)))⟩ := by
      simp only [clean_restaurant_name]
      rw [if_neg he]
    constructor
    · rw [hc]
      exact pyStrip_idem _
    · rw [hc]
      have h1 : ∃ a b, s.data = a ++ pyStrip s.data ++ b :=
        exists_around_stripPair isPySpace s.data
      have h2 : ∃ a b, pyStrip s.data = a ++
          rstrip isQuoteChar (lstrip isQuoteChar (pyStrip s.data)) ++ b :=
        exists_around_stripPair isQuoteChar (pyStrip s.data)
      have h3 : ∃ a b, rstrip isQuoteChar (lstrip isQuoteChar (pyStrip s.data)) =
          a ++ pyStrip (rstrip isQuoteChar (lstrip isQuoteChar (pyStrip s.data))) ++ b :=
        exists_around_stripPair isPySpace _
      exact append_around_trans (append_around_trans h1 h2) h3

/-- C1: with all five model calls returning text, the handler fails iff
the cleaned name is empty (reason `empty_name`, checked first) or the
normalized menu is empty (reason `empty_menu`); an empty drinks list,
slogan, or description never causes a failure and is carried into the
assembled result as the corresponding empty value. -/
theorem C1_validation (res : ChainOutputs) :
    (exceptIsOk (validate_and_assemble res) = false ↔
      (clean_restaurant_name (some res.restaurant_name) = "" ∨
       normalize_lines (some res.menu_items) = [])) ∧
    (validate_and_assemble res = .error GenFailure.empty_name ↔
      clean_restaurant_name (some res.restaurant_name) = "") ∧
    (validate_and_assemble res = .error GenFailure.empty_menu ↔
      (clean_restaurant_name (some res.restaurant_name) ≠ "" ∧
       normalize_lines (some res.menu_items) = [])) ∧
    (∀ g, validate_and_assemble res = .ok g →
      g = ⟨clean_restaurant_name (some res.restaurant_name),
           normalize_lines (some res.menu_items),
           normalize_lines (some res.drink_items),
           pyStripS res.slogan, pyStripS res.description⟩) := by
  simp only [validate_and_assemble]
  by_cases h1 : clean_restaurant_name (some res.restaurant_name) = ""
  · rw [if_pos h1]
    simp [exceptIsOk, h1]
  · rw [if_neg h1]
    by_cases h2 : normalize_lines (some res.menu_items) = []
    · rw [if_pos h2]
      simp [exceptIsOk, h1, h2]
    · rw [if_neg h2]
      simp [exceptIsOk, h1, h2]

/-- C1 witness: an empty menu fails with `empty_menu` (the generation is
not OK), at a concrete chain output whose drinks are also empty. -/
theorem C1_validation_witness :
    validate_and_assemble ⟨"Mexican", "Casa", "", "", "Fresh", "Warm"⟩ =
      .error GenFailure.empty_menu ∧
    exceptIsOk (validate_and_assemble
      ⟨"Mexican", "Casa", "", "", "Fresh", "Warm"⟩) = false :=
  ⟨(C1_validation ⟨"Mexican", "Casa", "", "", "Fresh", "Warm"⟩).2.2.1.mpr
     ⟨by decide, by decide⟩,
   (C1_validation ⟨"Mexican", "Casa", "", "", "Fresh", "Warm"⟩).1.mpr
     (Or.inr (by decide))⟩

/-- C5: if the name-generation call fails, the sequential assign chain of
`build_chain` aborts immediately: the error propagates unchanged and the
call trace is exactly the single name call — none of the menu, drinks,
slogan, or description calls is issued. -/
theorem C5_name_failure_stops_chain (cap : ModelCapability)
    (cuisine e : String) (h : cap.callName cuisine = .error e) :
    build_chain_run cap cuisine = (.error e, [CallTag.name]) := by
  simp [build_chain_run, h]

/-- A capability whose name call fails upstream and whose other calls
would succeed; used to witness the fail-fast behaviour. -/
def failingNameCap : ModelCapability :=
  ⟨fun _ => .error "upstream failure",
   fun _ _ => .ok "Tacos",
   fun _ _ => .ok "Horchata",
   fun _ _ => .ok "Fresh. Bold. Mexican.",
   fun _ _ => .ok "A lively spot"⟩

/-- C5 witness: the fail-fast theorem applied to a concrete failing
capability. -/
theorem C5_name_failure_stops_chain_witness :
    build_chain_run failingNameCap "Thai" =
      (.error "upstream failure", [CallTag.name]) :=
  C5_name_failure_stops_chain failingNameCap "Thai" "upstream failure" rfl

/-! ### Order independence of the four stage-2 calls -/

theorem foldl_step_error (cap : ModelCapability) (cuisine n : String)
    (order : List Stage2) (e : String) :
    order.foldl (stepStage2 cap cuisine n) (.error e) = .error e := by
  induction order with
  | nil => rfl
  | cons t ts ih => simpa [stepStage2] using ih

theorem foldl_step_isOk (cap : ModelCapability) (cuisine n : String)
    (order : List Stage2) :
    ∀ p : Stage2Out,
      (exceptIsOk (order.foldl (stepStage2 cap cuisine n) (.ok p)) = true ↔
       ∀ t ∈ order, exceptIsOk (callStage2 cap cuisine n t) = true) := by
  induction order with
  | nil => intro p; simp [exceptIsOk]
  | cons t ts ih =>
    intro p
    rw [List.foldl_cons]
    rcases hc : callStage2 cap cuisine n t with e | v
    · rw [show stepStage2 cap cuisine n (.ok p) t = .error e from by
        simp [stepStage2, hc]]
      rw [foldl_step_error]
      simp [exceptIsOk, hc]
    · rw [show stepStage2 cap cuisine n (.ok p) t = .ok (setStage2 p t v) from by
        simp [stepStage2, hc]]
      rw [ih (setStage2 p t v)]
      simp [exceptIsOk, hc]

theorem foldl_step_all_ok (cap : ModelCapability) (cuisine n : String)
    (f : Stage2 → String) (order : List Stage2) :
    ∀ p : Stage2Out,
      (∀ t ∈ order, callStage2 cap cuisine n t = .ok (f t)) →
      order.foldl (stepStage2 cap cuisine n) (.ok p) =
        .ok (order.foldl (fun q t => setStage2 q t (f t)) p) := by
  induction order with
  | nil => intro p _; rfl
  | cons t ts ih =>
    intro p hall
    rw [List.foldl_cons, List.foldl_cons]
    rw [show stepStage2 cap cuisine n (.ok p) t = .ok (setStage2 p t (f t)) from by
      simp [stepStage2, hall t (by simp)]]
    exact ih _ (fun t' ht' => hall t' (by simp [ht']))

theorem setStage2_fold_perm (f : Stage2 → String) {o1 o2 : List Stage2}
    (hp : o1.Perm o2) (p : Stage2Out) :
    o1.foldl (fun q t => setStage2 q t (f t)) p =
      o2.foldl (fun q t => setStage2 q t (f t)) p := by
  apply List.Perm.foldl_eq' hp
  intro x _ y _ z
  cases x <;> cases y <;> cases z <;> rfl

/-- C6: for every (deterministic) model capability, permuting the four
stage-2 invocations (menu, drinks, slogan, description) of the chain does
not change the produced values: whenever the chain succeeds it assembles
the same restaurant name and the same four outputs, and it succeeds for
one order exactly when it succeeds for the other; the canonical order
agrees with `build_chain_run`, the sequential assign chain of
`build_chain`. -/
theorem C6_stage2_order_independent (cap : ModelCapability)
    (cuisine : String) (order : List Stage2)
    (h : order.Perm stage2Order) :
    exceptToOption (build_chain_ordered cap cuisine order) =
      exceptToOption (build_chain_ordered cap cuisine stage2Order) ∧
    exceptToOption (build_chain_ordered cap cuisine stage2Order) =
      Option.map chainStage2Out
        (exceptToOption (build_chain_run cap cuisine).1) := by
  constructor
  · rcases hn : cap.callName cuisine with e | n
    · simp [build_chain_ordered, hn]
    · by_cases hall :
        ∀ t ∈ stage2Order, exceptIsOk (callStage2 cap cuisine n t) = true
      · have hok : ∀ t ∈ stage2Order, callStage2 cap cuisine n t =
            .ok (match callStage2 cap cuisine n t with
                 | .ok v => v
                 | .error _ => "") := by
          intro t ht
          have hb := hall t ht
          rcases hc : callStage2 cap cuisine n t with e | v
          · rw [hc] at hb
            simp [exceptIsOk] at hb
          · simp [hc]
        have hok1 : ∀ t ∈ order, callStage2 cap cuisine n t =
            .ok (match callStage2 cap cuisine n t with
                 | .ok v => v
                 | .error _ => "") :=
          fun t ht => hok t (h.subset ht)
        simp only [build_chain_ordered, hn]
        rw [foldl_step_all_ok cap cuisine n _ order _ hok1,
          foldl_step_all_ok cap cuisine n _ stage2Order _ hok]
        rw [setStage2_fold_perm _ h]
      · have hall1 :
            ¬ ∀ t ∈ order, exceptIsOk (callStage2 cap cuisine n t) = true := by
          intro hcon
          exact hall (fun t ht => hcon t (h.mem_iff.mpr ht))
        have hfo : exceptIsOk (order.foldl (stepStage2 cap cuisine n)
            (.ok ⟨none, none, none, none⟩)) = false := by
          rcases hv : order.foldl (stepStage2 cap cuisine n)
              (.ok ⟨none, none, none, none⟩) with e | p
          · rfl
          · exact absurd
              ((foldl_step_isOk cap cuisine n order ⟨none, none, none, none⟩).mp
                (by rw [hv]; rfl)) hall1
        have hfs : exceptIsOk (stage2Order.foldl (stepStage2 cap cuisine n)
            (.ok ⟨none, none, none, none⟩)) = false := by
          rcases hv : stage2Order.foldl (stepStage2 cap cuisine n)
              (.ok ⟨none, none, none, none⟩) with e | p
          · rfl
          · exact absurd
              ((foldl_step_isOk cap cuisine n stage2Order
                ⟨none, none, none, none⟩).mp (by rw [hv]; rfl)) hall
        simp only [build_chain_ordered, hn]
        rcases hv1 : order.foldl (stepStage2 cap cuisine n)
            (.ok ⟨none, none, none, none⟩) with e1 | p1
        · rcases hv2 : stage2Order.foldl (stepStage2 cap cuisine n)
              (.ok ⟨none, none, none, none⟩) with e2 | p2
          · rfl
          · rw [hv2] at hfs
            simp [exceptIsOk] at hfs
        · rw [hv1] at hfo
          simp [exceptIsOk] at hfo
  · rcases hn : cap.callName cuisine with e | n
    · simp [build_chain_ordered, build_chain_run, hn, exceptToOption]
    · rcases hm : cap.callMenu cuisine n with em | vm
      · simp [build_chain_ordered, build_chain_run, hn, hm, stage2Order,
          stepStage2, callStage2, foldl_step_error, exceptToOption]
      · rcases hd : cap.callDrinks cuisine n with ed | vd
        · simp [build_chain_ordered, build_chain_run, hn, hm, hd,
            stage2Order, stepStage2, callStage2, setStage2,
            foldl_step_error, exceptToOption]
        · rcases hs : cap.callSlogan n cuisine with es | vs
          · simp [build_chain_ordered, build_chain_run, hn, hm, hd, hs,
              stage2Order, stepStage2, callStage2, setStage2,
              foldl_step_error, exceptToOption]
          · rcases hds : cap.callDescription n cuisine with eds | vds
            · simp [build_chain_ordered, build_chain_run, hn, hm, hd, hs,
                hds, stage2Order, stepStage2, callStage2, setStage2,
                foldl_step_error, exceptToOption]
            · simp [build_chain_ordered, build_chain_run, hn, hm, hd, hs,
                hds, stage2Order, stepStage2, callStage2, setStage2,
                exceptToOption, chainStage2Out]

/-- A capability with all calls succeeding, used to witness order
independence on a concrete permuted order. -/
def allOkCap : ModelCapability :=
  ⟨fun _ => .ok "Casa Verde",
   fun _ _ => .ok "Tacos",
   fun _ _ => .ok "Horchata",
   fun _ _ => .ok "Fresh. Bold. Mexican.",
   fun _ _ => .ok "A lively spot"⟩

/-- C6 witness: a concrete permutation of the four stage-2 calls yields
the same outputs as the canonical order, which agrees with the chain. -/
theorem C6_stage2_order_independent_witness :
    exceptToOption (build_chain_ordered allOkCap "Mexican"
        [Stage2.drinks, Stage2.menu, Stage2.descr, Stage2.slogan]) =
      exceptToOption (build_chain_ordered allOkCap "Mexican" stage2Order) ∧
    exceptToOption (build_chain_ordered allOkCap "Mexican" stage2Order) =
      Option.map chainStage2Out
        (exceptToOption (build_chain_run allOkCap "Mexican").1) :=
  C6_stage2_order_independent allOkCap "Mexican"
    [Stage2.drinks, Stage2.menu, Stage2.descr, Stage2.slogan] (by decide)

/-! ### Character-class disjointness -/

theorem bullet_not_space {c : Char} (h : isBulletGlyph c = true) :
    isPySpace c = false := by
  simp only [isBulletGlyph, Bool.or_eq_true, decide_eq_true_eq] at h
  simp only [isPySpace, Bool.or_eq_false_iff, decide_eq_false_iff_not]
  omega

theorem digit_not_space {c : Char} (h : isDigitChar c = true) :
    isPySpace c = false := by
  simp only [isDigitChar, Bool.or_eq_true, decide_eq_true_eq] at h
  simp only [isPySpace, Bool.or_eq_false_iff, decide_eq_false_iff_not]
  omega

theorem digit_not_bullet {c : Char} (h : isDigitChar c = true) :
    isBulletGlyph c = false := by
  simp only [isDigitChar, Bool.or_eq_true, decide_eq_true_eq] at h
  simp only [isBulletGlyph, Bool.or_eq_false_iff, decide_eq_false_iff_not]
  omega

theorem space_not_bullet {c : Char} (h : isPySpace c = true) :
    isBulletGlyph c = false := by
  simp only [isPySpace, Bool.or_eq_true, decide_eq_true_eq] at h
  simp only [isBulletGlyph, Bool.or_eq_false_iff, decide_eq_false_iff_not]
  omega

theorem space_not_digit {c : Char} (h : isPySpace c = true) :
    isDigitChar c = false := by
  simp only [isPySpace, Bool.or_eq_true, decide_eq_true_eq] at h
  simp only [isDigitChar, Bool.or_eq_false_iff, decide_eq_false_iff_not]
  omega

theorem space_not_closer {c : Char} (h : isPySpace c = true) :
    isCloser c = false := by
  simp only [isPySpace, Bool.or_eq_true, decide_eq_true_eq] at h
  simp only [isCloser, Bool.or_eq_false_iff, decide_eq_false_iff_not]
  omega

theorem closer_not_digit {c : Char} (h : isCloser c = true) :
    isDigitChar c = false := by
  simp only [isCloser, Bool.or_eq_true, decide_eq_true_eq] at h
  simp only [isDigitChar, Bool.or_eq_false_iff, decide_eq_false_iff_not]
  omega

theorem dropWhile_run (p : Char → Bool) (good rest2 : List Char)
    (hg : ∀ c ∈ good, p c = true)
    (hr : ∀ h t, rest2 = h :: t → p h = false) :
    (good ++ rest2).dropWhile p = rest2 := by
  rw [List.dropWhile_append_of_pos (by intro a ha; simp [hg a ha])]
  cases rest2 with
  | nil => rfl
  | cons h t => exact List.dropWhile_cons_of_neg (by simp [hr h t rfl])

theorem head_neg_append (p : Char → Bool) (w rest : List Char)
    (hw : ∀ c ∈ w, isPySpace c = true)
    (hws : ∀ c : Char, isPySpace c = true → p c = false)
    (hr : ∀ h t, rest = h :: t → p h = false) :
    ∀ h t, w ++ rest = h :: t → p h = false := by
  intro h t he
  cases w with
  | nil => exact hr h t (by simpa using he)
  | cons a w' =>
    rw [List.cons_append] at he
    injection he with h1 _
    subst h1
    exact hws a (hw a (by simp))

theorem head_neg_append2 (p q : Char → Bool) (g rest : List Char)
    (hg : ∀ c ∈ g, q c = true)
    (hqp : ∀ c : Char, q c = true → p c = false)
    (hr : ∀ h t, rest = h :: t → p h = false) :
    ∀ h t, g ++ rest = h :: t → p h = false := by
  intro h t he
  cases g with
  | nil => exact hr h t (by simpa using he)
  | cons a g' =>
    rw [List.cons_append] at he
    injection he with h1 _
    subst h1
    exact hqp a (hg a (by simp))

theorem stripMarker_bullet_run (b w rest : List Char)
    (hbne : b ≠ []) (hb : ∀ c ∈ b, isBulletGlyph c = true)
    (hw : ∀ c ∈ w, isPySpace c = true)
    (hrest : ∀ h t, rest = h :: t →
      isBulletGlyph h = false ∧ isPySpace h = false) :
    stripMarker (b ++ w ++ rest) = rest := by
  obtain ⟨c, b', rfl⟩ := List.exists_cons_of_ne_nil hbne
  have hcb : isBulletGlyph c = true := hb c (by simp)
  have hshape : (c :: b') ++ w ++ rest = c :: (b' ++ w ++ rest) := by simp
  have hl1 : List.dropWhile isPySpace ((c :: b') ++ w ++ rest) =
      (c :: b') ++ w ++ rest := by
    rw [hshape]
    exact List.dropWhile_cons_of_neg (by simp [bullet_not_space hcb])
  have hdb : List.dropWhile isBulletGlyph ((c :: b') ++ w ++ rest) =
      w ++ rest := by
    rw [show (c :: b') ++ w ++ rest = (c :: b') ++ (w ++ rest) from by simp]
    exact dropWhile_run isBulletGlyph (c :: b') (w ++ rest) hb
      (head_neg_append2 isBulletGlyph isPySpace w rest hw
        (fun d hd => space_not_bullet hd)
        (fun h t he => (hrest h t he).1))
  unfold stripMarker
  simp only
  split
  · rename_i heq
    rw [hl1, hshape] at heq
    exact absurd heq (by simp)
  · rename_i c0 t0 heq
    rw [hl1, hshape] at heq
    injection heq with h1 _
    subst h1
    rw [if_pos hcb, hl1, hdb]
    exact dropWhile_run isPySpace w rest hw (fun h t he => (hrest h t he).2)

theorem stripMarker_digit_run (d k w rest : List Char)
    (hdne : d ≠ []) (hd : ∀ c ∈ d, isDigitChar c = true)
    (hk : ∀ c ∈ k, isCloser c = true)
    (hw : ∀ c ∈ w, isPySpace c = true)
    (hrest : ∀ h t, rest = h :: t →
      isCloser h = false ∧ isPySpace h = false ∧ isDigitChar h = false) :
    stripMarker (d ++ k ++ w ++ rest) = rest := by
  obtain ⟨c, d', rfl⟩ := List.exists_cons_of_ne_nil hdne
  have hcd : isDigitChar c = true := hd c (by simp)
  have hshape : (c :: d') ++ k ++ w ++ rest = c :: (d' ++ k ++ w ++ rest) := by
    simp
  have hl1 : List.dropWhile isPySpace ((c :: d') ++ k ++ w ++ rest) =
      (c :: d') ++ k ++ w ++ rest := by
    rw [hshape]
    exact List.dropWhile_cons_of_neg (by simp [digit_not_space hcd])
  have hdd : List.dropWhile isDigitChar ((c :: d') ++ k ++ w ++ rest) =
      k ++ (w ++ rest) := by
    rw [show (c :: d') ++ k ++ w ++ rest =
      (c :: d') ++ (k ++ (w ++ rest)) from by simp]
    exact dropWhile_run isDigitChar (c :: d') (k ++ (w ++ rest)) hd
      (head_neg_append2 isDigitChar isCloser k (w ++ rest) hk
        (fun e he => closer_not_digit he)
        (head_neg_append2 isDigitChar isPySpace w rest hw
          (fun e he => space_not_digit he)
          (fun h t he => (hrest h t he).2.2)))
  have hdk : List.dropWhile isCloser (k ++ (w ++ rest)) = w ++ rest :=
    dropWhile_run isCloser k (w ++ rest) hk
      (head_neg_append2 isCloser isPySpace w rest hw
        (fun e he => space_not_closer he)
        (fun h t he => (hrest h t he).1))
  unfold stripMarker
  simp only
  split
  · rename_i heq
    rw [hl1, hshape] at heq
    exact absurd heq (by simp)
  · rename_i c0 t0 heq
    rw [hl1, hshape] at heq
    injection heq with h1 _
    subst h1
    rw [if_neg (by simp [digit_not_bullet hcd]), if_pos hcd, hl1, hdd, hdk]
    exact dropWhile_run isPySpace w rest hw
      (fun h t he => (hrest h t he).2.1)

theorem stripMarker_no_marker (rest : List Char)
    (hrest : ∀ h t, rest = h :: t →
      isBulletGlyph h = false ∧ isDigitChar h = false ∧ isPySpace h = false) :
    stripMarker rest = rest := by
  cases rest with
  | nil => rfl
  | cons h t =>
    obtain ⟨hnb, hnd, hns⟩ := hrest h t rfl
    have hl1 : List.dropWhile isPySpace (h :: t) = h :: t :=
      List.dropWhile_cons_of_neg (by simp [hns])
    unfold stripMarker
    simp only
    split
    · rename_i heq
      rw [hl1] at heq
      exact absurd heq (by simp)
    · rename_i c0 t0 heq
      rw [hl1] at heq
      injection heq with h1 _
      subst h1
      rw [if_neg (by simp [hnb]), if_neg (by simp [hnd]), hl1, hl1]

/-- C3 (amended): `normalize_lines` strips exactly one leading list
marker per line, where a marker is a run of bullet-like glyphs
(hyphen, asterisk, bullet, en dash, em dash), or a numeric prefix (one
or more Unicode decimal digits, the regex class `\d`) followed by ZERO
or more of '.', ')', '-', or bullet glyphs — so a bare numeric prefix IS
a marker and is stripped (the regex closer suffix is `*`); a line
starting with none of these is left unchanged; the strip is applied
exactly once, never recursively (a second marker survives, as in
"- - item" → "- item"). -/
theorem C3_list_marker_strip :
    (∀ b w rest : List Char, b ≠ [] →
      (∀ c ∈ b, isBulletGlyph c = true) →
      (∀ c ∈ w, isPySpace c = true) →
      (∀ h t, rest = h :: t →
        isBulletGlyph h = false ∧ isPySpace h = false) →
      stripMarker (b ++ w ++ rest) = rest) ∧
    (∀ d k w rest : List Char, d ≠ [] →
      (∀ c ∈ d, isDigitChar c = true) →
      (∀ c ∈ k, isCloser c = true) →
      (∀ c ∈ w, isPySpace c = true) →
      (∀ h t, rest = h :: t →
        isCloser h = false ∧ isPySpace h = false ∧ isDigitChar h = false) →
      stripMarker (d ++ k ++ w ++ rest) = rest) ∧
    (∀ rest : List Char,
      (∀ h t, rest = h :: t →
        isBulletGlyph h = false ∧ isDigitChar h = false ∧
        isPySpace h = false) →
      stripMarker rest = rest) ∧
    normalize_lines (some "12 Tacos") = ["Tacos"] ∧
    normalize_lines (some "- - item") = ["- item"] :=
  ⟨stripMarker_bullet_run, stripMarker_digit_run, stripMarker_no_marker,
   by decide, by decide⟩

/-- C3 amended witness: a bullet marker and a numeric marker stripped at
concrete lines. -/
theorem C3_list_marker_strip_witness :
    stripMarker (['-'] ++ [' '] ++ ['i', 't', 'e', 'm']) =
      ['i', 't', 'e', 'm'] ∧
    stripMarker (['1', '2'] ++ ['.'] ++ [' '] ++ ['T', 'a', 'c', 'o', 's']) =
      ['T', 'a', 'c', 'o', 's'] :=
  ⟨C3_list_marker_strip.1 ['-'] [' '] ['i', 't', 'e', 'm'] (by decide)
     (by decide) (by decide)
     (by intro h t he; injection he with h1 _; subst h1; decide),
   C3_list_marker_strip.2.1 ['1', '2'] ['.'] [' '] ['T', 'a', 'c', 'o', 's']
     (by decide) (by decide) (by decide) (by decide)
     (by intro h t he; injection he with h1 _; subst h1; decide)⟩

/-- C3 counterexample: the claim as stated says a leading numeric prefix
not followed by '.', ')', '-', or a bullet glyph is not a marker and is
left in place; but the regex makes the closer suffix optional
(`\d+[.)\-•]*`), so on "12 Tacos" the code strips the bare "12 " and
returns ["Tacos"], not ["12 Tacos"]. -/
theorem C3_bare_numeric_stripped :
    normalize_lines (some "12 Tacos") = ["Tacos"] ∧
    normalize_lines (some "12 Tacos") ≠ ["12 Tacos"] := by
  constructor
  · decide
  · decide
